import Mathlib

/-!
Shallow embedding of `src/student_mgmt.py` (Student Management System).

The Python module keeps a process-global mutable list `students`; here the
store is passed to and returned from each operation explicitly, as the spec's
design notes prescribe for reimplementations.  Python strings are Lean
`String`s; `str.strip` is modelled by `pyStrip` (drop whitespace characters
from both ends), `str.lower` by `pyLower` (character-wise `Char.toLower`),
and the Python substring test `q in s` by `pyIn`.
-/

namespace StudentMgmt

/-- The whitespace characters stripped by Python's `str.strip()` (ASCII part:
space, tab, newline, carriage return, vertical tab, form feed). -/
def isSpaceChar (c : Char) : Bool :=
  c == ' ' || c == '\t' || c == '\n' || c == '\r' || c == '\x0b' || c == '\x0c'

/-- Drop whitespace from both ends of a character list. -/
def stripChars (l : List Char) : List Char :=
  ((l.dropWhile isSpaceChar).reverse.dropWhile isSpaceChar).reverse

/-- Model of Python `s.strip()`. -/
def pyStrip (s : String) : String :=
  String.mk (stripChars s.data)

/-- Model of Python `s.lower()`. -/
def pyLower (s : String) : String :=
  String.mk (s.data.map Char.toLower)

/-- Predicate `startsWithChars pat l` is true when `pat` is an initial segment of `l`. -/
def startsWithChars : List Char → List Char → Bool
  | [], _ => true
  | _ :: _, [] => false
  | p :: ps, c :: cs => p == c && startsWithChars ps cs

/-- Predicate `containsChars pat l` is true when `pat` occurs contiguously in `l`. -/
def containsChars : List Char → List Char → Bool
  | pat, [] => startsWithChars pat []
  | pat, c :: cs => startsWithChars pat (c :: cs) || containsChars pat cs

/-- Model of the Python substring test `pat in s`. -/
def pyIn (pat s : String) : Bool :=
  containsChars pat.data s.data

/-- A student record: the dict `{"roll_no": ..., "name": ..., "grade": ...,
"age": ...}` built by `add_student_record` / `load_data`; all four keys are
always present, so the record is a fixed four-field structure. -/
structure Student where
  roll_no : String
  name : String
  grade : String
  age : String
deriving DecidableEq, Repr

/-- Model of `add_student_record` (src/student_mgmt.py lines 46-57): trim all four
inputs, reject when a required field is empty or the roll number is taken,
otherwise append the new record. -/
def add_student_record (students : List Student) (roll_no name grade age : String) :
    Bool × List Student :=
  let roll_no := pyStrip roll_no
  let name := pyStrip name
  let grade := pyStrip grade
  let age := pyStrip age
  if roll_no = "" ∨ name = "" ∨ grade = "" then (false, students)
  else if students.any (fun s => s.roll_no == roll_no) then (false, students)
  else (true, students ++ [⟨roll_no, name, grade, age⟩])

/-- Model of `search_by_roll` (lines 60-65): first record whose `roll_no` equals the
trimmed query, else `None`. -/
def search_by_roll (students : List Student) (roll_no : String) : Option Student :=
  students.find? (fun s => s.roll_no == pyStrip roll_no)

/-- Model of `search_by_name_part` (lines 68-71): case-insensitive partial match on
name. -/
def search_by_name_part (students : List Student) (name_part : String) : List Student :=
  let q := pyLower (pyStrip name_part)
  students.filter (fun s => pyIn q (pyLower s.name))

/-- The field mutations of `update_student_record` (lines 80-86) applied to
the located record: `name`/`grade` only when provided and non-empty after
trimming, `age` whenever provided. -/
def applyUpdate (name grade age : Option String) (s : Student) : Student :=
  { s with
    name := match name with
      | some n => if pyStrip n = "" then s.name else pyStrip n
      | none => s.name,
    grade := match grade with
      | some g => if pyStrip g = "" then s.grade else pyStrip g
      | none => s.grade,
    age := match age with
      | some a => pyStrip a
      | none => s.age }

/-- Replace the first record whose `roll_no` is `r` (the Python code mutates
the dict returned by `search_by_roll`, i.e. the first match, in place). -/
def updateFirst (r : String) (name grade age : Option String) :
    List Student → List Student
  | [] => []
  | s :: ss =>
    if s.roll_no == r then applyUpdate name grade age s :: ss
    else s :: updateFirst r name grade age ss

/-- Model of `update_student_record` (lines 74-87). -/
def update_student_record (students : List Student) (roll_no : String)
    (name grade age : Option String) : Bool × List Student :=
  match search_by_roll students roll_no with
  | none => (false, students)
  | some _ => (true, updateFirst (pyStrip roll_no) name grade age students)

/-- Model of `delete_student_record` (lines 90-96): `students.remove(s)` deletes the
first list element equal to the located dict, i.e. `List.erase`. -/
def delete_student_record (students : List Student) (roll_no : String) :
    Bool × List Student :=
  match search_by_roll students roll_no with
  | none => (false, students)
  | some s => (true, students.erase s)

/-! ## Persistence (lines 15-42)

The data file is modelled at the level of the JSON value that `json.load`
would produce: a file is either absent, present but not parseable as JSON,
or present with a parsed JSON value.  `json.dump`/`json.load` of the
standard library are the (external) text codec; their round-tripping of a
JSON value through UTF-8 text is abstracted away, so `save_data` yields the
file whose parsed content is exactly the dumped value. -/

/-- A JSON value as decoded by Python's `json` module (numbers restricted to
integers; the repository only ever stores strings). -/
inductive JValue where
  | null
  | bool (b : Bool)
  | num (n : Int)
  | str (s : String)
  | arr (elems : List JValue)
  | obj (fields : List (String × JValue))

/-- State of the data file: missing, present but invalid JSON, or present
with a parsed JSON value. -/
inductive FileContent where
  | absent
  | invalid
  | json (v : JValue)

/-- Python `repr` of a string: single quotes by default, double quotes when
the text contains a single quote but no double quote; backslash, the quote
character and the common control characters are escaped. -/
def pyReprStr (s : String) : String :=
  let q : Char := if s.data.contains '\'' && !(s.data.contains '"') then '"' else '\''
  let esc : Char → String := fun c =>
    if c == '\\' then "\\\\"
    else if c == q then String.mk ['\\', q]
    else if c == '\n' then "\\n"
    else if c == '\r' then "\\r"
    else if c == '\t' then "\\t"
    else String.mk [c]
  String.mk [q] ++ String.join (s.data.map esc) ++ String.mk [q]

/-- Concatenate with `", "` separators, as Python's container `repr` does. -/
def joinComma : List String → String
  | [] => ""
  | [x] => x
  | x :: xs => x ++ ", " ++ joinComma xs

mutual

/-- Python `repr` of a decoded JSON value. -/
def pyRepr : JValue → String
  | .null => "None"
  | .bool true => "True"
  | .bool false => "False"
  | .num n => toString n
  | .str s => pyReprStr s
  | .arr xs => "[" ++ joinComma (pyReprList xs) ++ "]"
  | .obj fs => "\x7b" ++ joinComma (pyReprFields fs) ++ "\x7d"

def pyReprList : List JValue → List String
  | [] => []
  | v :: vs => pyRepr v :: pyReprList vs

def pyReprFields : List (String × JValue) → List String
  | [] => []
  | (k, v) :: fs => (pyReprStr k ++ ": " ++ pyRepr v) :: pyReprFields fs

end

/-- Python `str` of a decoded JSON value: identity on strings, `repr`-like
text otherwise (`str(None) = "None"`, `str(15) = "15"`, ...). -/
def pyStr : JValue → String
  | .str s => s
  | v => pyRepr v

/-- Python dict lookup on the field list of a JSON object: `json.load`
builds the dict left to right, so a duplicated key keeps its last value. -/
def jget : List (String × JValue) → String → Option JValue
  | [], _ => none
  | (k, v) :: rest, key =>
    match jget rest key with
    | some w => some w
    | none => if k == key then some v else none

/-- The Python test `x in (None, "")` for a decoded JSON value. -/
def isNoneOrEmpty : JValue → Bool
  | .null => true
  | .str s => s == ""
  | _ => false

/-- Normalisation of one record-like element (lines 27-32):
`str(s.get(k, "")).strip()` for the three required fields, and the guarded
extraction for `age`. -/
def normalizeRecord (fields : List (String × JValue)) : Student :=
  { roll_no := pyStrip (pyStr ((jget fields "roll_no").getD (JValue.str ""))),
    name := pyStrip (pyStr ((jget fields "name").getD (JValue.str ""))),
    grade := pyStrip (pyStr ((jget fields "grade").getD (JValue.str ""))),
    age := match jget fields "age" with
      | none => ""
      | some v => if isNoneOrEmpty v then "" else pyStrip (pyStr v) }

/-- The cleaning loop of `load_data` (lines 24-32): keep the dict elements,
normalised; drop everything else. -/
def cleanElems : List JValue → List Student
  | [] => []
  | JValue.obj fields :: rest => normalizeRecord fields :: cleanElems rest
  | _ :: rest => cleanElems rest

/-- Model of `load_data` (lines 15-36): missing file and unparseable content both
yield `[]`; a parsed non-list also falls through to `[]`; a parsed list is
cleaned element by element. -/
def load_data (file : FileContent) : List Student :=
  match file with
  | .absent => []
  | .invalid => []
  | .json (JValue.arr elems) => cleanElems elems
  | .json _ => []

/-- The JSON object `json.dump` writes for one student record. -/
def studentJson (s : Student) : JValue :=
  JValue.obj [("roll_no", JValue.str s.roll_no), ("name", JValue.str s.name),
              ("grade", JValue.str s.grade), ("age", JValue.str s.age)]

/-- Model of `save_data` (lines 39-42): overwrite the file with the JSON dump of the
store. -/
def save_data (students : List Student) : FileContent :=
  FileContent.json (JValue.arr (students.map studentJson))

/-! ## Derived predicates used by the spec's invariants -/

/-- No two records share a `roll_no` (§3's uniqueness invariant). -/
def RollNodup (students : List Student) : Prop :=
  (students.map Student.roll_no).Nodup

instance : DecidablePred RollNodup := fun students =>
  inferInstanceAs (Decidable ((students.map Student.roll_no).Nodup))

/-- All four fields of a record carry no leading or trailing whitespace. -/
def TrimmedStudent (s : Student) : Prop :=
  pyStrip s.roll_no = s.roll_no ∧ pyStrip s.name = s.name ∧
    pyStrip s.grade = s.grade ∧ pyStrip s.age = s.age

instance : DecidablePred TrimmedStudent := fun s =>
  inferInstanceAs (Decidable (pyStrip s.roll_no = s.roll_no ∧ pyStrip s.name = s.name ∧
    pyStrip s.grade = s.grade ∧ pyStrip s.age = s.age))

/-! ## String lemmas -/

theorem dropWhile_idem {α : Type} (p : α → Bool) (l : List α) :
    (l.dropWhile p).dropWhile p = l.dropWhile p := by
  induction l with
  | nil => rfl
  | cons a t ih =>
    by_cases h : p a = true
    · simp [List.dropWhile_cons, h, ih]
    · simp [List.dropWhile_cons, h]

theorem head?_dropWhile_false {α : Type} (p : α → Bool) (l : List α) (a : α)
    (h : (l.dropWhile p).head? = some a) : p a = false := by
  induction l with
  | nil => simp [List.dropWhile] at h
  | cons b t ih =>
    by_cases hb : p b = true
    · rw [List.dropWhile_cons, if_pos hb] at h
      exact ih h
    · rw [List.dropWhile_cons, if_neg hb] at h
      simp only [List.head?_cons, Option.some.injEq] at h
      subst h
      exact Bool.eq_false_iff.mpr hb

theorem dropWhile_eq_self {α : Type} (p : α → Bool) (l : List α)
    (h : ∀ a, l.head? = some a → p a = false) : l.dropWhile p = l := by
  cases l with
  | nil => rfl
  | cons a t =>
    have ha := h a rfl
    rw [List.dropWhile_cons, if_neg (by simp [ha])]

theorem getLast?_dropWhile {α : Type} (p : α → Bool) (l : List α)
    (h : l.dropWhile p ≠ []) : (l.dropWhile p).getLast? = l.getLast? := by
  induction l with
  | nil => simp [List.dropWhile] at h
  | cons a t ih =>
    by_cases ha : p a = true
    · rw [List.dropWhile_cons, if_pos ha] at h ⊢
      rw [ih h]
      cases t with
      | nil => exact absurd rfl h
      | cons b t2 => rw [List.getLast?_cons_cons]
    · rw [List.dropWhile_cons, if_neg ha]

theorem stripChars_dropWhile (l : List Char) :
    (stripChars l).dropWhile isSpaceChar = stripChars l := by
  apply dropWhile_eq_self
  intro a ha
  rw [stripChars, List.head?_reverse] at ha
  have hne : (l.dropWhile isSpaceChar).reverse.dropWhile isSpaceChar ≠ [] := by
    intro h0
    rw [h0] at ha
    simp at ha
  rw [getLast?_dropWhile _ _ hne, List.getLast?_reverse] at ha
  exact head?_dropWhile_false _ _ _ ha

theorem stripChars_idem (l : List Char) : stripChars (stripChars l) = stripChars l := by
  show (((stripChars l).dropWhile isSpaceChar).reverse.dropWhile isSpaceChar).reverse
      = stripChars l
  rw [stripChars_dropWhile]
  have h2 : (stripChars l).reverse = (l.dropWhile isSpaceChar).reverse.dropWhile isSpaceChar := by
    rw [stripChars, List.reverse_reverse]
  rw [h2, dropWhile_idem, ← h2, List.reverse_reverse]

theorem pyStrip_idem (s : String) : pyStrip (pyStrip s) = pyStrip s := by
  show String.mk (stripChars (stripChars s.data)) = String.mk (stripChars s.data)
  rw [stripChars_idem]

theorem pyStrip_empty : pyStrip "" = "" := rfl

theorem startsWithChars_iff (pat : List Char) : ∀ l : List Char,
    (startsWithChars pat l = true ↔ ∃ t, l = pat ++ t) := by
  induction pat with
  | nil => intro l; simp [startsWithChars]
  | cons p ps ih =>
    intro l
    cases l with
    | nil => simp [startsWithChars]
    | cons c cs =>
      simp only [startsWithChars, Bool.and_eq_true, beq_iff_eq, ih, List.cons_append,
        List.cons.injEq]
      constructor
      · rintro ⟨rfl, t, rfl⟩
        exact ⟨t, rfl, rfl⟩
      · rintro ⟨t, rfl, rfl⟩
        exact ⟨rfl, t, rfl⟩

theorem containsChars_iff (pat : List Char) : ∀ l : List Char,
    (containsChars pat l = true ↔ ∃ l₁ l₂, l = l₁ ++ pat ++ l₂) := by
  intro l
  induction l with
  | nil =>
    simp only [containsChars, startsWithChars_iff]
    constructor
    · rintro ⟨t, ht⟩
      exact ⟨[], t, by simpa using ht⟩
    · rintro ⟨l₁, l₂, h⟩
      have h2 : (l₁ ++ pat) ++ l₂ = [] := h.symm
      rw [List.append_eq_nil, List.append_eq_nil] at h2
      exact ⟨[], by simp [h2.1.2]⟩
  | cons c cs ih =>
    simp only [containsChars, Bool.or_eq_true, startsWithChars_iff, ih]
    constructor
    · rintro (⟨t, ht⟩ | ⟨l₁, l₂, rfl⟩)
      · exact ⟨[], t, by simpa using ht⟩
      · exact ⟨c :: l₁, l₂, rfl⟩
    · rintro ⟨l₁, l₂, h⟩
      cases l₁ with
      | nil =>
        left
        exact ⟨l₂, by simpa using h⟩
      | cons d l₁2 =>
        right
        simp only [List.cons_append, List.cons.injEq] at h
        exact ⟨l₁2, l₂, h.2⟩

theorem pyIn_iff (pat s : String) :
    pyIn pat s = true ↔ ∃ l₁ l₂, s.data = l₁ ++ pat.data ++ l₂ :=
  containsChars_iff _ _

theorem pyIn_empty (s : String) : pyIn "" s = true := by
  show containsChars [] s.data = true
  cases s.data with
  | nil => rfl
  | cons c cs => simp [containsChars, startsWithChars]

/-! ## List helpers -/

theorem find?_split {α : Type} (p : α → Bool) (l₁ l₂ : List α) (s₀ : α)
    (h : ∀ s ∈ l₁, p s = false) (h₀ : p s₀ = true) :
    (l₁ ++ s₀ :: l₂).find? p = some s₀ := by
  induction l₁ with
  | nil => simp [List.find?_cons, h₀]
  | cons a t ih =>
    have ha := h a (List.mem_cons_self a t)
    rw [List.cons_append, List.find?_cons_of_neg _ (by simp [ha])]
    exact ih fun s hs => h s (List.mem_cons_of_mem a hs)

theorem updateFirst_split (r : String) (nm g a : Option String) (l₁ l₂ : List Student)
    (s₀ : Student) (h : ∀ s ∈ l₁, s.roll_no ≠ r) (h₀ : s₀.roll_no = r) :
    updateFirst r nm g a (l₁ ++ s₀ :: l₂) = l₁ ++ applyUpdate nm g a s₀ :: l₂ := by
  induction l₁ with
  | nil => simp [updateFirst, h₀]
  | cons b t ih =>
    have hb := h b (List.mem_cons_self b t)
    have ih2 := ih fun s hs => h s (List.mem_cons_of_mem b hs)
    simp only [List.cons_append, updateFirst, beq_iff_eq, if_neg hb, List.append_eq, ih2]

theorem erase_split (l₁ l₂ : List Student) (s₀ : Student) (h : s₀ ∉ l₁) :
    (l₁ ++ s₀ :: l₂).erase s₀ = l₁ ++ l₂ := by
  rw [List.erase_append_right _ h, List.erase_cons_head]

/-! ## Claim theorems -/

/-- C1: `Add` trims all four inputs and returns `false` with the store
unchanged when the trimmed `roll_no`, `name` or `grade` is empty or the
trimmed `roll_no` is already taken; otherwise it returns `true`, appends the
record of the four trimmed fields, and a subsequent `FindByRoll` on that
`roll_no` returns exactly that record. -/
theorem add_student_record_spec (students : List Student) (roll name grade age : String) :
    ((pyStrip roll = "" ∨ pyStrip name = "" ∨ pyStrip grade = "" ∨
        ∃ s ∈ students, s.roll_no = pyStrip roll) →
      add_student_record students roll name grade age = (false, students)) ∧
    (¬(pyStrip roll = "" ∨ pyStrip name = "" ∨ pyStrip grade = "" ∨
        ∃ s ∈ students, s.roll_no = pyStrip roll) →
      add_student_record students roll name grade age
        = (true, students ++ [⟨pyStrip roll, pyStrip name, pyStrip grade, pyStrip age⟩]) ∧
      search_by_roll (students ++ [⟨pyStrip roll, pyStrip name, pyStrip grade, pyStrip age⟩]) roll
        = some ⟨pyStrip roll, pyStrip name, pyStrip grade, pyStrip age⟩) := by
  have hA : add_student_record students roll name grade age =
      (if pyStrip roll = "" ∨ pyStrip name = "" ∨ pyStrip grade = "" then (false, students)
       else if students.any (fun s => s.roll_no == pyStrip roll) then (false, students)
       else (true, students ++ [⟨pyStrip roll, pyStrip name, pyStrip grade, pyStrip age⟩])) := rfl
  constructor
  · intro h
    rw [hA]
    by_cases h0 : pyStrip roll = "" ∨ pyStrip name = "" ∨ pyStrip grade = ""
    · rw [if_pos h0]
    · rw [if_neg h0]
      have hex : ∃ s ∈ students, s.roll_no = pyStrip roll := by
        rcases h with h | h | h | h
        · exact absurd (Or.inl h) h0
        · exact absurd (Or.inr (Or.inl h)) h0
        · exact absurd (Or.inr (Or.inr h)) h0
        · exact h
      have hany : students.any (fun s => s.roll_no == pyStrip roll) = true := by
        rw [List.any_eq_true]
        obtain ⟨s, hs, hr⟩ := hex
        exact ⟨s, hs, by simp [hr]⟩
      rw [if_pos hany]
  · intro h
    push_neg at h
    obtain ⟨h1, h2, h3, h4⟩ := h
    have h0 : ¬(pyStrip roll = "" ∨ pyStrip name = "" ∨ pyStrip grade = "") := by
      simp [h1, h2, h3]
    have hany : ¬students.any (fun s => s.roll_no == pyStrip roll) = true := by
      rw [Bool.not_eq_true, List.any_eq_false]
      intro s hs
      simp [h4 s hs]
    refine ⟨by rw [hA, if_neg h0, if_neg hany], ?_⟩
    rw [search_by_roll]
    apply find?_split
    · intro s hs
      simp [h4 s hs]
    · simp

/-- Witness for C1: the spec's concrete success scenario. -/
theorem add_student_record_spec_witness :
    ¬(pyStrip " 101 " = "" ∨ pyStrip "Alice" = "" ∨ pyStrip "A" = "" ∨
        ∃ s ∈ ([] : List Student), s.roll_no = pyStrip " 101 ") ∧
    (add_student_record [] " 101 " "Alice" "A" " 15"
        = (true, [⟨pyStrip " 101 ", pyStrip "Alice", pyStrip "A", pyStrip " 15"⟩]) ∧
      search_by_roll [⟨pyStrip " 101 ", pyStrip "Alice", pyStrip "A", pyStrip " 15"⟩] " 101 "
        = some ⟨pyStrip " 101 ", pyStrip "Alice", pyStrip "A", pyStrip " 15"⟩) :=
  ⟨by decide, (add_student_record_spec [] " 101 " "Alice" "A" " 15").2 (by decide)⟩

/-- C4: whenever `Add`, `Update` or `Delete` returns `false`, the store is
exactly unchanged; in particular `Update` on an absent `roll_no` returns
`false` and mutates nothing. -/
theorem mutation_failure_atomic (students : List Student) :
    (∀ roll name grade age : String,
        (add_student_record students roll name grade age).1 = false →
        (add_student_record students roll name grade age).2 = students) ∧
    (∀ (roll : String) (name grade age : Option String),
        (update_student_record students roll name grade age).1 = false →
        (update_student_record students roll name grade age).2 = students) ∧
    (∀ roll : String,
        (delete_student_record students roll).1 = false →
        (delete_student_record students roll).2 = students) ∧
    (∀ (roll : String) (name grade age : Option String),
        search_by_roll students roll = none →
        update_student_record students roll name grade age = (false, students)) := by
  refine ⟨?_, ?_, ?_, ?_⟩
  · intro roll name grade age h
    have hA : add_student_record students roll name grade age =
        (if pyStrip roll = "" ∨ pyStrip name = "" ∨ pyStrip grade = "" then (false, students)
         else if students.any (fun s => s.roll_no == pyStrip roll) then (false, students)
         else (true, students ++ [⟨pyStrip roll, pyStrip name, pyStrip grade, pyStrip age⟩])) :=
      rfl
    rw [hA] at h ⊢
    split_ifs at h ⊢ <;> rfl
  · intro roll name grade age h
    cases hfind : search_by_roll students roll with
    | none => simp [update_student_record, hfind]
    | some s => simp [update_student_record, hfind] at h
  · intro roll h
    cases hfind : search_by_roll students roll with
    | none => simp [delete_student_record, hfind]
    | some s => simp [delete_student_record, hfind] at h
  · intro roll name grade age h
    simp [update_student_record, h]

/-- Witness for C4: a rejected `Add` (empty roll number) leaves the store
unchanged. -/
theorem mutation_failure_atomic_witness :
    (add_student_record [⟨"101", "Alice", "A", ""⟩] " " "Bob" "B" "").1 = false ∧
    (add_student_record [⟨"101", "Alice", "A", ""⟩] " " "Bob" "B" "").2
      = [⟨"101", "Alice", "A", ""⟩] :=
  ⟨by decide, (mutation_failure_atomic [⟨"101", "Alice", "A", ""⟩]).1 " " "Bob" "B" "" (by decide)⟩

theorem applyUpdate_roll_no (nm g a : Option String) (s : Student) :
    (applyUpdate nm g a s).roll_no = s.roll_no := rfl

theorem updateFirst_map_roll (r : String) (nm g a : Option String) :
    ∀ l : List Student,
      (updateFirst r nm g a l).map Student.roll_no = l.map Student.roll_no := by
  intro l
  induction l with
  | nil => rfl
  | cons b t ih =>
    by_cases hb : (b.roll_no == r) = true
    · simp [updateFirst, hb, applyUpdate_roll_no]
    · simp [updateFirst, hb, ih]

/-- C2: uniqueness of `roll_no` is an invariant of `Add`, `Update` and
`Delete`; moreover `Update` never changes any record's `roll_no`, so it
cannot collide two roll numbers. -/
theorem roll_no_unique_invariant (students : List Student) (h : RollNodup students) :
    (∀ roll name grade age : String,
        RollNodup (add_student_record students roll name grade age).2) ∧
    (∀ (roll : String) (name grade age : Option String),
        ((update_student_record students roll name grade age).2).map Student.roll_no
            = students.map Student.roll_no ∧
          RollNodup (update_student_record students roll name grade age).2) ∧
    (∀ roll : String, RollNodup (delete_student_record students roll).2) := by
  refine ⟨?_, ?_, ?_⟩
  · intro roll name grade age
    have hA : add_student_record students roll name grade age =
        (if pyStrip roll = "" ∨ pyStrip name = "" ∨ pyStrip grade = "" then (false, students)
         else if students.any (fun s => s.roll_no == pyStrip roll) then (false, students)
         else (true, students ++ [⟨pyStrip roll, pyStrip name, pyStrip grade, pyStrip age⟩])) :=
      rfl
    rw [hA]
    split_ifs with h1 h2
    · exact h
    · exact h
    · rw [RollNodup, List.map_append, List.nodup_append]
      refine ⟨h, List.nodup_singleton _, ?_⟩
      intro x hx hx2
      simp only [List.map_cons, List.map_nil, List.mem_singleton] at hx2
      obtain ⟨s, hs, rfl⟩ := List.mem_map.mp hx
      exact h2 (List.any_eq_true.mpr ⟨s, hs, by simp [hx2]⟩)
  · intro roll name grade age
    cases hfind : search_by_roll students roll with
    | none => simp only [update_student_record, hfind]; exact ⟨trivial, h⟩
    | some s =>
      simp only [update_student_record, hfind]
      refine ⟨updateFirst_map_roll _ _ _ _ _, ?_⟩
      rw [RollNodup, updateFirst_map_roll]
      exact h
  · intro roll
    cases hfind : search_by_roll students roll with
    | none => simp only [delete_student_record, hfind]; exact h
    | some s =>
      simp only [delete_student_record, hfind]
      exact List.Nodup.sublist (List.Sublist.map _ (List.erase_sublist s students)) h

/-- Witness for C2: adding a fresh roll number to a one-record store keeps
roll numbers unique. -/
theorem roll_no_unique_invariant_witness :
    RollNodup [⟨"101", "Alice", "A", ""⟩] ∧
    RollNodup (add_student_record [⟨"101", "Alice", "A", ""⟩] "102" "Bob" "B" "").2 :=
  ⟨by decide, (roll_no_unique_invariant [⟨"101", "Alice", "A", ""⟩] (by decide)).1 "102" "Bob" "B" ""⟩

/-- C3: when a record with the trimmed `roll_no` exists, `Update` returns
`true` (even when nothing changes) and replaces only that record:
`name`/`grade` are installed only when provided and non-empty after
trimming, `age` is installed (trimmed, possibly empty) whenever provided,
and `roll_no` is never changed. -/
theorem update_student_record_spec (students : List Student) (roll : String)
    (name grade age : Option String) (l₁ l₂ : List Student) (s₀ : Student)
    (hsplit : students = l₁ ++ s₀ :: l₂)
    (hfirst : ∀ s ∈ l₁, s.roll_no ≠ pyStrip roll)
    (hs₀ : s₀.roll_no = pyStrip roll) :
    update_student_record students roll name grade age =
      (true, l₁ ++
        { roll_no := s₀.roll_no,
          name := match name with
            | some n => if pyStrip n = "" then s₀.name else pyStrip n
            | none => s₀.name,
          grade := match grade with
            | some g => if pyStrip g = "" then s₀.grade else pyStrip g
            | none => s₀.grade,
          age := match age with
            | some a => pyStrip a
            | none => s₀.age } :: l₂) := by
  subst hsplit
  have hfind : search_by_roll (l₁ ++ s₀ :: l₂) roll = some s₀ := by
    apply find?_split
    · intro s hs
      simp [hfirst s hs]
    · simp [hs₀]
  have hupd := updateFirst_split (pyStrip roll) name grade age l₁ l₂ s₀ hfirst hs₀
  simp only [update_student_record, hfind, hupd, applyUpdate]

/-- Witness for C3: the spec's concrete update scenario (non-empty new name
and grade, age untouched). -/
theorem update_student_record_spec_witness :
    update_student_record [⟨"102", "Bhavani", "B", "16"⟩] "102"
        (some "Bhavani R") (some "A") none
      = (true, [⟨"102", "Bhavani R", "A", "16"⟩]) := by
  rw [update_student_record_spec [⟨"102", "Bhavani", "B", "16"⟩] "102"
    (some "Bhavani R") (some "A") none [] [] ⟨"102", "Bhavani", "B", "16"⟩
    rfl (by decide) (by decide)]
  decide

/-- C5: `Delete` fails and changes nothing when the trimmed `roll_no` is
absent; when a record with it exists (store unique), `Delete` returns `true`,
removes exactly that record preserving the order of the rest, and a
subsequent `FindByRoll` returns absent. -/
theorem delete_student_record_spec (students : List Student) (roll : String)
    (l₁ l₂ : List Student) (s₀ : Student) :
    (search_by_roll students roll = none →
      delete_student_record students roll = (false, students)) ∧
    (students = l₁ ++ s₀ :: l₂ →
      (∀ s ∈ l₁, s.roll_no ≠ pyStrip roll) →
      s₀.roll_no = pyStrip roll →
      RollNodup students →
      delete_student_record students roll = (true, l₁ ++ l₂) ∧
        search_by_roll (l₁ ++ l₂) roll = none) := by
  constructor
  · intro h
    simp [delete_student_record, h]
  · intro hsplit hfirst hs₀ hnd
    subst hsplit
    have hfind : search_by_roll (l₁ ++ s₀ :: l₂) roll = some s₀ := by
      apply find?_split
      · intro s hs
        simp [hfirst s hs]
      · simp [hs₀]
    have hnotmem : s₀ ∉ l₁ := fun hmem => hfirst s₀ hmem hs₀
    have hl₂ : ∀ s ∈ l₂, s.roll_no ≠ pyStrip roll := by
      intro s hs heq
      have hmap : (l₁.map Student.roll_no ++ s₀.roll_no :: l₂.map Student.roll_no).Nodup := by
        simpa [RollNodup] using hnd
      have h2 := (List.nodup_append.mp hmap).2.1
      rw [List.nodup_cons] at h2
      have : s₀.roll_no ∈ l₂.map Student.roll_no := by
        rw [hs₀, ← heq]
        exact List.mem_map_of_mem _ hs
      exact h2.1 this
    refine ⟨?_, ?_⟩
    · simp [delete_student_record, hfind, erase_split l₁ l₂ s₀ hnotmem]
    · rw [search_by_roll, List.find?_eq_none]
      intro s hs
      rcases List.mem_append.mp hs with h | h
      · simp [hfirst s h]
      · simp [hl₂ s h]

/-- Witness for C5: the spec's concrete delete scenario on a two-record
store. -/
theorem delete_student_record_spec_witness :
    delete_student_record [⟨"101", "Alice", "A", ""⟩, ⟨"103", "Ajay", "C", ""⟩] "103"
        = (true, [⟨"101", "Alice", "A", ""⟩] ++ []) ∧
      search_by_roll ([⟨"101", "Alice", "A", ""⟩] ++ []) "103" = none :=
  (delete_student_record_spec [⟨"101", "Alice", "A", ""⟩, ⟨"103", "Ajay", "C", ""⟩] "103"
    [⟨"101", "Alice", "A", ""⟩] [] ⟨"103", "Ajay", "C", ""⟩).2
    rfl (by decide) (by decide) (by decide)

/-- C6: `FindByNamePart` trims and lowercases the query and selects, in
store order, exactly the records whose lowercased name contains it as a
substring (`pyIn` agrees with the mathematical substring relation); an empty
(or all-whitespace) query returns the whole store. -/
theorem search_by_name_part_spec (students : List Student) (q : String) :
    search_by_name_part students q
        = students.filter (fun s => pyIn (pyLower (pyStrip q)) (pyLower s.name)) ∧
    (∀ pat s : String,
        pyIn pat s = true ↔ ∃ l₁ l₂ : List Char, s.data = l₁ ++ pat.data ++ l₂) ∧
    (pyStrip q = "" → search_by_name_part students q = students) := by
  refine ⟨rfl, pyIn_iff, ?_⟩
  intro hq
  show students.filter (fun s => pyIn (pyLower (pyStrip q)) (pyLower s.name)) = students
  rw [hq]
  have hlow : pyLower "" = "" := rfl
  rw [hlow]
  have htrue : ∀ s : Student, pyIn "" (pyLower s.name) = true := fun s => pyIn_empty _
  simp [htrue]

/-- Witness for C6: an all-whitespace query returns the whole store. -/
theorem search_by_name_part_spec_witness :
    search_by_name_part [⟨"101", "Alice", "A", ""⟩] "  "
      = [⟨"101", "Alice", "A", ""⟩] :=
  (search_by_name_part_spec [⟨"101", "Alice", "A", ""⟩] "  ").2.2 (by decide)

theorem normalizeRecord_studentJson (s : Student) (hs : TrimmedStudent s) :
    normalizeRecord [("roll_no", JValue.str s.roll_no), ("name", JValue.str s.name),
      ("grade", JValue.str s.grade), ("age", JValue.str s.age)] = s := by
  obtain ⟨rollv, namev, gradev, agev⟩ := s
  obtain ⟨h1, h2, h3, h4⟩ := hs
  rw [normalizeRecord]
  simp only [jget]
  by_cases ha : agev = ""
  · simp +decide [pyStr, isNoneOrEmpty, ha, h1, h2, h3]
  · simp +decide [pyStr, isNoneOrEmpty, ha, h1, h2, h3, h4]

theorem cleanElems_studentJson (l : List Student) (h : ∀ s ∈ l, TrimmedStudent s) :
    cleanElems (l.map studentJson) = l := by
  induction l with
  | nil => rfl
  | cons s ss ih =>
    rw [List.map_cons]
    show normalizeRecord _ :: cleanElems (ss.map studentJson) = s :: ss
    rw [ih fun t ht => h t (List.mem_cons_of_mem s ht),
      normalizeRecord_studentJson s (h s (List.mem_cons_self s ss))]

/-- C7: `Save` followed by `Load` on the same path reproduces the saved
sequence exactly, for any store whose records have trimmed fields and
unique roll numbers (every store reachable through the Record Store
operations). -/
theorem save_load_round_trip (students : List Student)
    (htrim : ∀ s ∈ students, TrimmedStudent s) (_hnd : RollNodup students) :
    load_data (save_data students) = students := by
  show cleanElems (students.map studentJson) = students
  exact cleanElems_studentJson students htrim

/-- Witness for C7: one-record round trip. -/
theorem save_load_round_trip_witness :
    load_data (save_data [⟨"101", "Alice", "A", "15"⟩]) = [⟨"101", "Alice", "A", "15"⟩] :=
  save_load_round_trip [⟨"101", "Alice", "A", "15"⟩] (by decide) (by decide)

/-- C8: `Load` never signals an error: a missing file, unparseable content,
and a parsed value that is not a list all yield the empty sequence. -/
theorem load_data_total :
    load_data FileContent.absent = [] ∧
    load_data FileContent.invalid = [] ∧
    ∀ v : JValue, (∀ elems : List JValue, v ≠ JValue.arr elems) →
      load_data (FileContent.json v) = [] := by
  refine ⟨rfl, rfl, ?_⟩
  intro v hv
  cases v with
  | arr elems => exact absurd rfl (hv elems)
  | null => rfl
  | bool b => rfl
  | num n => rfl
  | str s => rfl
  | obj fs => rfl

/-- Witness for C8: a parsed top-level object (not a list) loads as empty. -/
theorem load_data_total_witness :
    load_data (FileContent.json (JValue.obj [])) = [] :=
  load_data_total.2.2 (JValue.obj []) fun _ h => JValue.noConfusion h

/-- C9: on a parsed list, `Load` keeps exactly the object elements, in
order and without deduplication, normalising each one: `roll_no`, `name`,
`grade` default to the empty string when absent and are trimmed; `age` is
trimmed when present and neither `null` nor empty, else empty. -/
theorem load_data_normalize (elems : List JValue) :
    load_data (FileContent.json (JValue.arr elems))
      = elems.filterMap (fun v =>
          match v with
          | JValue.obj fields => some
              { roll_no := match jget fields "roll_no" with
                  | some w => pyStrip (pyStr w)
                  | none => "",
                name := match jget fields "name" with
                  | some w => pyStrip (pyStr w)
                  | none => "",
                grade := match jget fields "grade" with
                  | some w => pyStrip (pyStr w)
                  | none => "",
                age := match jget fields "age" with
                  | some w => if isNoneOrEmpty w then "" else pyStrip (pyStr w)
                  | none => "" }
          | _ => none) := by
  show cleanElems elems = _
  have hrec : ∀ fields : List (String × JValue), normalizeRecord fields =
      { roll_no := match jget fields "roll_no" with
          | some w => pyStrip (pyStr w)
          | none => "",
        name := match jget fields "name" with
          | some w => pyStrip (pyStr w)
          | none => "",
        grade := match jget fields "grade" with
          | some w => pyStrip (pyStr w)
          | none => "",
        age := match jget fields "age" with
          | some w => if isNoneOrEmpty w then "" else pyStrip (pyStr w)
          | none => "" } := by
    intro fields
    rw [normalizeRecord]
    cases jget fields "roll_no" <;> cases jget fields "name" <;>
      cases jget fields "grade" <;> cases jget fields "age" <;> rfl
  induction elems with
  | nil => rfl
  | cons v vs ih =>
    cases v <;> simp only [cleanElems, ih, List.filterMap_cons, hrec]

theorem applyUpdate_trimmed (nm g a : Option String) (s : Student)
    (hs : TrimmedStudent s) : TrimmedStudent (applyUpdate nm g a s) := by
  obtain ⟨h1, h2, h3, h4⟩ := hs
  refine ⟨h1, ?_, ?_, ?_⟩
  · show pyStrip (match nm with
        | some n => if pyStrip n = "" then s.name else pyStrip n
        | none => s.name)
      = (match nm with
        | some n => if pyStrip n = "" then s.name else pyStrip n
        | none => s.name)
    cases nm with
    | none => exact h2
    | some n =>
      show pyStrip (if pyStrip n = "" then s.name else pyStrip n)
        = (if pyStrip n = "" then s.name else pyStrip n)
      by_cases hn : pyStrip n = ""
      · rw [if_pos hn]
        exact h2
      · rw [if_neg hn]
        exact pyStrip_idem n
  · show pyStrip (match g with
        | some x => if pyStrip x = "" then s.grade else pyStrip x
        | none => s.grade)
      = (match g with
        | some x => if pyStrip x = "" then s.grade else pyStrip x
        | none => s.grade)
    cases g with
    | none => exact h3
    | some x =>
      show pyStrip (if pyStrip x = "" then s.grade else pyStrip x)
        = (if pyStrip x = "" then s.grade else pyStrip x)
      by_cases hx : pyStrip x = ""
      · rw [if_pos hx]
        exact h3
      · rw [if_neg hx]
        exact pyStrip_idem x
  · show pyStrip (match a with
        | some x => pyStrip x
        | none => s.age)
      = (match a with
        | some x => pyStrip x
        | none => s.age)
    cases a with
    | none => exact h4
    | some x => exact pyStrip_idem x

theorem updateFirst_trimmed (r : String) (nm g a : Option String) :
    ∀ l : List Student, (∀ s ∈ l, TrimmedStudent s) →
      ∀ s ∈ updateFirst r nm g a l, TrimmedStudent s := by
  intro l
  induction l with
  | nil =>
    intro _ s hs
    simp [updateFirst] at hs
  | cons b t ih =>
    intro hl s hs
    rw [updateFirst] at hs
    by_cases hb : (b.roll_no == r) = true
    · rw [if_pos hb] at hs
      rcases List.mem_cons.mp hs with rfl | hs2
      · exact applyUpdate_trimmed nm g a b (hl b (List.mem_cons_self b t))
      · exact hl s (List.mem_cons_of_mem b hs2)
    · rw [if_neg hb] at hs
      rcases List.mem_cons.mp hs with rfl | hs2
      · exact hl s (List.mem_cons_self s t)
      · exact ih (fun u hu => hl u (List.mem_cons_of_mem b hu)) s hs2

theorem normalizeRecord_trimmed (fields : List (String × JValue)) :
    TrimmedStudent (normalizeRecord fields) := by
  refine ⟨pyStrip_idem _, pyStrip_idem _, pyStrip_idem _, ?_⟩
  show pyStrip (match jget fields "age" with
      | none => ""
      | some v => if isNoneOrEmpty v then "" else pyStrip (pyStr v))
    = (match jget fields "age" with
      | none => ""
      | some v => if isNoneOrEmpty v then "" else pyStrip (pyStr v))
  cases jget fields "age" with
  | none => rfl
  | some v =>
    show pyStrip (if isNoneOrEmpty v then "" else pyStrip (pyStr v))
      = (if isNoneOrEmpty v then "" else pyStrip (pyStr v))
    by_cases hv : isNoneOrEmpty v = true
    · rw [if_pos hv]
      rfl
    · rw [if_neg hv]
      exact pyStrip_idem _

theorem load_data_trimmed (file : FileContent) :
    ∀ s ∈ load_data file, TrimmedStudent s := by
  cases file with
  | absent => intro s hs; simp [load_data] at hs
  | invalid => intro s hs; simp [load_data] at hs
  | json v =>
    cases v with
    | arr elems =>
      show ∀ s ∈ cleanElems elems, TrimmedStudent s
      induction elems with
      | nil => intro s hs; simp [cleanElems] at hs
      | cons w ws ih =>
        intro s hs
        cases w with
        | obj fields =>
          rcases List.mem_cons.mp hs with rfl | hs2
          · exact normalizeRecord_trimmed fields
          · exact ih s hs2
        | null => exact ih s hs
        | bool b => exact ih s hs
        | num n => exact ih s hs
        | str t => exact ih s hs
        | arr es => exact ih s hs
    | null => intro s hs; simp [load_data] at hs
    | bool b => intro s hs; simp [load_data] at hs
    | num n => intro s hs; simp [load_data] at hs
    | str t => intro s hs; simp [load_data] at hs
    | obj fs => intro s hs; simp [load_data] at hs

/-- C10: every record in a store is a fixed four-field structure (by the
`Student` type itself), and "all four fields trimmed" is preserved by `Add`,
`Update` and `Delete` for arbitrary untrimmed arguments, and holds of every
record produced by `Load`. -/
theorem shape_trim_invariant :
    (∀ students : List Student, (∀ s ∈ students, TrimmedStudent s) →
      ∀ roll name grade age : String,
        ∀ s ∈ (add_student_record students roll name grade age).2, TrimmedStudent s) ∧
    (∀ students : List Student, (∀ s ∈ students, TrimmedStudent s) →
      ∀ (roll : String) (name grade age : Option String),
        ∀ s ∈ (update_student_record students roll name grade age).2, TrimmedStudent s) ∧
    (∀ students : List Student, (∀ s ∈ students, TrimmedStudent s) →
      ∀ roll : String, ∀ s ∈ (delete_student_record students roll).2, TrimmedStudent s) ∧
    (∀ file : FileContent, ∀ s ∈ load_data file, TrimmedStudent s) := by
  refine ⟨?_, ?_, ?_, load_data_trimmed⟩
  · intro students htrim roll name grade age s hs
    have hA : add_student_record students roll name grade age =
        (if pyStrip roll = "" ∨ pyStrip name = "" ∨ pyStrip grade = "" then (false, students)
         else if students.any (fun t => t.roll_no == pyStrip roll) then (false, students)
         else (true, students ++ [⟨pyStrip roll, pyStrip name, pyStrip grade, pyStrip age⟩])) :=
      rfl
    rw [hA] at hs
    split_ifs at hs
    · exact htrim s hs
    · exact htrim s hs
    · rcases List.mem_append.mp hs with h | h
      · exact htrim s h
      · rcases List.mem_singleton.mp h with rfl
        exact ⟨pyStrip_idem _, pyStrip_idem _, pyStrip_idem _, pyStrip_idem _⟩
  · intro students htrim roll name grade age s hs
    cases hfind : search_by_roll students roll with
    | none =>
      rw [update_student_record, hfind] at hs
      exact htrim s hs
    | some s₀ =>
      rw [update_student_record, hfind] at hs
      exact updateFirst_trimmed (pyStrip roll) name grade age students htrim s hs
  · intro students htrim roll s hs
    cases hfind : search_by_roll students roll with
    | none =>
      rw [delete_student_record, hfind] at hs
      exact htrim s hs
    | some s₀ =>
      rw [delete_student_record, hfind] at hs
      exact htrim s (List.Sublist.mem hs (List.erase_sublist s₀ students))

/-- Witness for C10: adding untrimmed inputs to the empty store yields a
store of trimmed records. -/
theorem shape_trim_invariant_witness :
    (∀ s ∈ ([] : List Student), TrimmedStudent s) ∧
    (∀ s ∈ (add_student_record [] " 101 " " Alice " "A" " 15 ").2, TrimmedStudent s) :=
  ⟨by decide, shape_trim_invariant.1 [] (by decide) " 101 " " Alice " "A" " 15 "⟩

end StudentMgmt
